import Mathlib

/- A shallow embedding of `src/detector_full_candidate_name.py`, the PII
   detection and redaction engine.

   Python strings are modelled as `List Char`.  The character classes that
   the script writes out explicitly (`[a-zA-Z0-9._-]`, `[A-Za-z\.\-\']`,
   ...) are exact; the shorthand classes `\s`, `\d`, `\w` are modelled by
   their ASCII meaning, which is what the detector's data exercises.
   `re.match` with a pattern ending in `$` also accepts one trailing
   newline; `matchDollar` models that.  JSON numbers are modelled as
   integers and payload field values as scalars (the rule set assumes
   payloads are not nested, and no rule inspects a float). -/

/-- ASCII Python whitespace: the characters matched by `\s` and split on by
`str.split()` / stripped by `str.strip()`. -/
def isPyWs (c : Char) : Bool :=
  c == ' ' || c == '\t' || c == '\n' || c == '\r' || c == '\x0b' || c == '\x0c'

/-- Python `str.strip()`: drop leading and trailing whitespace. -/
def stripWs (cs : List Char) : List Char :=
  ((cs.dropWhile isPyWs).reverse.dropWhile isPyWs).reverse

/-- Helper for `splitWs`: accumulate the current word (reversed) while
scanning.  Mirrors Python `str.split()` with no separator: split on runs of
whitespace, discarding empty words. -/
def splitWsAux : List Char → List Char → List (List Char)
  | [], acc => if acc.isEmpty then [] else [acc.reverse]
  | c :: rest, acc =>
    if isPyWs c then (if acc.isEmpty then [] else [acc.reverse]) ++ splitWsAux rest []
    else splitWsAux rest (c :: acc)

/-- Python `str.split()` (no argument): words separated by whitespace runs. -/
def splitWs (cs : List Char) : List (List Char) :=
  splitWsAux cs []

/-- Splitting on every character satisfying `p`, keeping empty pieces:
Python `str.split(sep)` / `re.split` on a one-character-class pattern. -/
def splitOnPred (p : Char → Bool) : List Char → List (List Char)
  | [] => [[]]
  | c :: rest =>
    if p c then [] :: splitOnPred p rest
    else
      match splitOnPred p rest with
      | h :: t => (c :: h) :: t
      | [] => [[c]]

/-- Python `str.split(sep)` for a single-character separator. -/
def splitOnChar (sep : Char) (cs : List Char) : List (List Char) :=
  splitOnPred (fun c => c == sep) cs

/-- Matching with `re.match` against a pattern `^...$`: `$` also matches just before one
trailing newline, so the pattern body may match the whole string or the
string without its final `'\n'`. -/
def matchDollar (m : List Char → Bool) (cs : List Char) : Bool :=
  m cs || (cs.getLast? == some '\n' && m cs.dropLast)

/-- The character class `[\s\-\(\)\+]` removed by `is_phone_number` /
`redact_phone` (`re.sub(r'[\s\-\(\)\+]', '', text)`). -/
def cleanPhone (cs : List Char) : List Char :=
  cs.filter fun c => !(isPyWs c || c == '-' || c == '(' || c == ')' || c == '+')

/-- Python `is_phone_number`: after removing separators, exactly ten digits
(`re.match(r'^\d{10}$', clean_text)`). -/
def is_phone_number (cs : List Char) : Bool :=
  matchDollar (fun l => decide (l.length = 10) && l.all Char.isDigit) (cleanPhone cs)

/-- The character class `[\s\-]` removed by `is_aadhar_number` /
`redact_aadhar`. -/
def cleanAadhar (cs : List Char) : List Char :=
  cs.filter fun c => !(isPyWs c || c == '-')

/-- Python `is_aadhar_number`: after removing spaces and hyphens, exactly twelve
digits (`re.match(r'^\d{12}$', clean_text)`). -/
def is_aadhar_number (cs : List Char) : Bool :=
  matchDollar (fun l => decide (l.length = 12) && l.all Char.isDigit) (cleanAadhar cs)

/-- Pattern body of `^[A-Z]\d{7,8}$`. -/
def passportPat (cs : List Char) : Bool :=
  match cs with
  | c :: rest =>
    ('A' ≤ c && c ≤ 'Z') && (decide (rest.length = 7) || decide (rest.length = 8))
      && rest.all Char.isDigit
  | [] => false

/-- Python `is_passport_number`: `re.match(r'^[A-Z]\d{7,8}$', text.upper())`. -/
def is_passport_number (cs : List Char) : Bool :=
  matchDollar passportPat (cs.map Char.toUpper)

/-- Local-part class of the UPI pattern: `[a-zA-Z0-9._-]`. -/
def upiLocalChar (c : Char) : Bool :=
  c.isAlpha || c.isDigit || c == '.' || c == '_' || c == '-'

/-- Domain class of the UPI pattern (and of the e-mail domain): `[a-zA-Z0-9.-]`. -/
def upiDomainChar (c : Char) : Bool :=
  c.isAlpha || c.isDigit || c == '.' || c == '-'

/-- Pattern body of `^[a-zA-Z0-9._-]+@[a-zA-Z0-9.-]+$`.  Neither class
contains `'@'`, so the pattern matches exactly the strings with a single
`'@'` whose two sides are nonempty and lie in their classes. -/
def upiPat (cs : List Char) : Bool :=
  match splitOnChar '@' cs with
  | [l, d] => !l.isEmpty && l.all upiLocalChar && !d.isEmpty && d.all upiDomainChar
  | _ => false

/-- Python `is_upi_id`: `re.match(r'^[a-zA-Z0-9._-]+@[a-zA-Z0-9.-]+$', text)`. -/
def is_upi_id (cs : List Char) : Bool :=
  matchDollar upiPat cs

/-- Local-part class of the e-mail pattern: `[a-zA-Z0-9._%+-]`. -/
def emailLocalChar (c : Char) : Bool :=
  c.isAlpha || c.isDigit || c == '.' || c == '_' || c == '%' || c == '+' || c == '-'

/-- Domain side of the e-mail pattern, `[a-zA-Z0-9.-]+\.[a-zA-Z]{2,}`:
some split at a literal dot has a nonempty class-conforming left part and
an alphabetic right part of length at least two (regex existential
semantics via backtracking). -/
def emailDomainOk (d : List Char) : Bool :=
  (List.range d.length).any fun i =>
    (d.get? i == some '.') && decide (0 < i) && (d.take i).all upiDomainChar
      && decide (2 ≤ d.length - i - 1) && (d.drop (i + 1)).all Char.isAlpha

/-- Pattern body of `^[a-zA-Z0-9._%+-]+@[a-zA-Z0-9.-]+\.[a-zA-Z]{2,}$`.
No class contains `'@'`, so the string must contain exactly one `'@'`. -/
def emailPat (cs : List Char) : Bool :=
  match splitOnChar '@' cs with
  | [l, d] => !l.isEmpty && l.all emailLocalChar && emailDomainOk d
  | _ => false

/-- Python `is_email`: `re.match` of the e-mail pattern. -/
def is_email (cs : List Char) : Bool :=
  matchDollar emailPat cs

/-- Per-token pattern of `is_full_name`: `^[A-Za-z\.\-\']+$` (letters, dot,
hyphen, apostrophe; code point 39). -/
def namePartOk (p : List Char) : Bool :=
  !p.isEmpty && p.all fun c => c.isAlpha || c == '.' || c == '-' || c.toNat == 39

/-- Python `is_full_name`: `text.strip().split()` yields at least two tokens and
every token matches the name-token pattern. -/
def is_full_name (cs : List Char) : Bool :=
  let parts := splitWs (stripWs cs)
  decide (2 ≤ parts.length) && parts.all namePartOk

/-- ASCII word character, the class `\w` = `[a-zA-Z0-9_]` used by the `\b`
boundaries in the pin-code search. -/
def isWordChar (c : Char) : Bool :=
  c.isAlpha || c.isDigit || c == '_'

/-- Semantics of `re.search(r'\b\d{6}\b', text)`: six consecutive digits somewhere, not
adjacent to a word character on either side. -/
def hasPincode (t : List Char) : Bool :=
  (List.range t.length).any fun i =>
    decide (((t.drop i).take 6).length = 6) && ((t.drop i).take 6).all Char.isDigit
      && (decide (i = 0) ||
            (match t.get? (i - 1) with
             | some c => !isWordChar c
             | none => true))
      && (match t.get? (i + 6) with
          | some c => !isWordChar c
          | none => true)

/-- Python `is_physical_address`: stripped text of length at least 10, containing a
standalone six-digit pin code, and splitting into at least three parts on
commas/newlines (`re.split(r'[,\n]', text)`). -/
def is_physical_address (cs : List Char) : Bool :=
  let text := stripWs cs
  if text.length < 10 then false
  else
    let has_pincode := hasPincode text
    let components := splitOnPred (fun c => c == ',' || c == '\n') text
    has_pincode && decide (3 ≤ components.length)

/-- Python `redact_phone`: on a ten-character cleaned value keep the first two and
last two characters with six `X`s between; otherwise a placeholder. -/
def redact_phone (phone : List Char) : List Char :=
  if (cleanPhone phone).length = 10 then
    (cleanPhone phone).take 2 ++ "XXXXXX".data
      ++ (cleanPhone phone).drop ((cleanPhone phone).length - 2)
  else "[REDACTED_PHONE]".data

/-- Python `redact_aadhar`: on a twelve-character cleaned value keep the first two
and last two characters with eight `X`s between; otherwise a placeholder. -/
def redact_aadhar (aadhar : List Char) : List Char :=
  if (cleanAadhar aadhar).length = 12 then
    (cleanAadhar aadhar).take 2 ++ "XXXXXXXX".data
      ++ (cleanAadhar aadhar).drop ((cleanAadhar aadhar).length - 2)
  else "[REDACTED_AADHAR]".data

/-- Python `redact_passport`: first character plus a fixed run of seven `X`s when
the value has more than one character, else a placeholder. -/
def redact_passport (passport : List Char) : List Char :=
  if 1 < passport.length then passport.take 1 ++ "XXXXXXX".data
  else "[REDACTED_PASSPORT]".data

/-- Python `redact_upi`: split on `'@'`; with exactly two parts keep the first two
characters of the user name (or mask it wholly when short) and the domain;
otherwise a placeholder. -/
def redact_upi (upi : List Char) : List Char :=
  match splitOnChar '@' upi with
  | [username, domain] =>
    if 2 < username.length then username.take 2 ++ "XXX@".data ++ domain
    else "XXX@".data ++ domain
  | _ => "[REDACTED_UPI]".data

/-- Python `redact_name`: each whitespace-separated token keeps its first character
followed by `X`s; one-character tokens become a single `X`; tokens are
rejoined with single spaces. -/
def redact_name (name : List Char) : List Char :=
  let parts := splitWs (stripWs name)
  List.intercalate " ".data (parts.map fun part =>
    if 1 < part.length then part.take 1 ++ List.replicate (part.length - 1) 'X'
    else ['X'])

/-- Python `redact_email`: same scheme as `redact_upi` with its own placeholder. -/
def redact_email (email : List Char) : List Char :=
  match splitOnChar '@' email with
  | [username, domain] =>
    if 2 < username.length then username.take 2 ++ "XXX@".data ++ domain
    else "XXX@".data ++ domain
  | _ => "[REDACTED_EMAIL]".data

/-- The four exempt words of `redact_address`. -/
def exemptWord (w : List Char) : Bool :=
  w == "ROAD".data || w == "STREET".data || w == "CITY".data || w == "STATE".data

/-- Python `redact_address`: replace every digit with `X`, then partially mask each
word longer than three characters whose uppercase form is not exempt. -/
def redact_address (address : List Char) : List Char :=
  let redacted := address.map fun c => if c.isDigit then 'X' else c
  let words := splitWs redacted
  List.intercalate " ".data (words.map fun word =>
    if 3 < word.length && !exemptWord (word.map Char.toUpper) then
      word.take 2 ++ List.replicate (word.length - 2) 'X'
    else word)

/-- Scalar JSON/Python values a payload field may hold. -/
inductive PyValue where
  | str (s : String)
  | int (n : Int)
  | bool (b : Bool)
  | null
deriving DecidableEq, Repr

/-- Python `str(value)` on a payload scalar. -/
def pyStr : PyValue → List Char
  | PyValue.str s => s.data
  | PyValue.int n => (toString n).data
  | PyValue.bool b => (if b then "True" else "False").data
  | PyValue.null => "None".data

/-- Outcome of one iteration of the field loop of `detect_and_redact_pii`
for a single key/value pair. -/
inductive FieldAction where
  | skip
  | standalone (nv : List Char)
  | combinatorial (cat : String) (nv : List Char)
  | norule
deriving DecidableEq, Repr

/-- The classifier chain of the loop body of `detect_and_redact_pii`
(lines 159-191): skip null/empty values, then the `elif` chain, standalone
detectors first, then the combinatorial ones, with `device_id`/`ip_address`
always firing as a combinatorial candidate with a fixed placeholder.  The
loop variable `value_str = str(value)` is written inline as
`pyStr value`. -/
def fieldAction (key : String) (value : PyValue) : FieldAction :=
  if value = PyValue.null ∨ value = PyValue.str "" then FieldAction.skip
  else if (key = "phone" ∨ key = "contact") ∧ is_phone_number (pyStr value) = true then
    FieldAction.standalone (redact_phone (pyStr value))
  else if key = "aadhar" ∧ is_aadhar_number (pyStr value) = true then
    FieldAction.standalone (redact_aadhar (pyStr value))
  else if key = "passport" ∧ is_passport_number (pyStr value) = true then
    FieldAction.standalone (redact_passport (pyStr value))
  else if key = "upi_id" ∧ is_upi_id (pyStr value) = true then
    FieldAction.standalone (redact_upi (pyStr value))
  else if key = "name" ∧ is_full_name (pyStr value) = true then
    FieldAction.combinatorial "name" (redact_name (pyStr value))
  else if key = "email" ∧ is_email (pyStr value) = true then
    FieldAction.combinatorial "email" (redact_email (pyStr value))
  else if key = "address" ∧ is_physical_address (pyStr value) = true then
    FieldAction.combinatorial "address" (redact_address (pyStr value))
  else if key = "device_id" ∨ key = "ip_address" then
    FieldAction.combinatorial key "[REDACTED_ID]".data
  else FieldAction.norule

/-- Python dict assignment `d[k] = v`: replace the value at the first
occurrence of `k`, or append the binding when `k` is absent. -/
def setKey : List (String × PyValue) → String → PyValue → List (String × PyValue)
  | [], k, v => [(k, v)]
  | (k', v') :: rest, k, v =>
    if k' = k then (k', v) :: rest else (k', v') :: setKey rest k v

/-- One iteration of the field loop: the accumulator is
(`redacted_data`, `is_pii`, `combinatorial_pii`). -/
def loopStep (acc : List (String × PyValue) × Bool × List String)
    (kv : String × PyValue) : List (String × PyValue) × Bool × List String :=
  match fieldAction kv.1 kv.2 with
  | FieldAction.skip => acc
  | FieldAction.standalone nv => (setKey acc.1 kv.1 (PyValue.str ⟨nv⟩), true, acc.2.2)
  | FieldAction.combinatorial cat nv =>
    (setKey acc.1 kv.1 (PyValue.str ⟨nv⟩), acc.2.1, acc.2.2 ++ [cat])
  | FieldAction.norule => acc

/-- The record processor on a parsed payload: start from a copy of the data,
run the field loop, then set the verdict when at least two combinatorial
candidates fired (lines 153-195). -/
def processPayload (data : List (String × PyValue)) : List (String × PyValue) × Bool :=
  let r := data.foldl loopStep (data, false, [])
  (r.1, r.2.1 || decide (2 ≤ r.2.2.length))

/-- Lower-case hexadecimal digit, for `json.dumps` unicode escapes. -/
def hexDigit (n : Nat) : Char :=
  if n < 10 then Char.ofNat (48 + n) else Char.ofNat (87 + n)

/-- A `\uXXXX` escape for a 16-bit value. -/
def uEscape (n : Nat) : List Char :=
  ['\\', 'u', hexDigit (n / 4096 % 16), hexDigit (n / 256 % 16),
   hexDigit (n / 16 % 16), hexDigit (n % 16)]

/-- How `json.dumps` (default `ensure_ascii=True`) renders one character of
a string: printable ASCII except quote and backslash is literal, the common
control characters get two-character escapes, everything else `\uXXXX`
(with surrogate pairs above the basic plane). -/
def jsonEscapeChar (c : Char) : List Char :=
  if c == '"' then ['\\', '"']
  else if c == '\\' then ['\\', '\\']
  else if c == '\n' then ['\\', 'n']
  else if c == '\r' then ['\\', 'r']
  else if c == '\t' then ['\\', 't']
  else if c.toNat == 8 then ['\\', 'b']
  else if c.toNat == 12 then ['\\', 'f']
  else if c.toNat < 32 then uEscape c.toNat
  else if c.toNat < 127 then [c]
  else if c.toNat ≤ 65535 then uEscape c.toNat
  else
    uEscape (55296 + (c.toNat - 65536) / 1024) ++ uEscape (56320 + (c.toNat - 65536) % 1024)

/-- Rendering of `json.dumps` for a string. -/
def dumpsStr (s : List Char) : List Char :=
  '"' :: s.flatMap jsonEscapeChar ++ ['"']

/-- Rendering of `json.dumps` for a scalar payload value. -/
def dumpsValue : PyValue → List Char
  | PyValue.str s => dumpsStr s.data
  | PyValue.int n => (toString n).data
  | PyValue.bool b => (if b then "true" else "false").data
  | PyValue.null => "null".data

/-- Rendering of `json.dumps` for an object with the default separators:
`\x7b"k": v, ...\x7d`. -/
def dumpsObj (fields : List (String × PyValue)) : List Char :=
  '\x7b' :: List.intercalate ", ".data
    (fields.map fun kv => dumpsStr kv.1.data ++ ": ".data ++ dumpsValue kv.2) ++ ['\x7d']

/-- Python `json_str.replace('"', '""')`: double every double-quote character. -/
def doubleQuotes (cs : List Char) : List Char :=
  cs.flatMap fun c => if c == '"' then ['"', '"'] else [c]

/-- The possible results of `json.loads` on a payload text: a JSON object
(a Python dict), a JSON array (a Python list), or a bare scalar.  Only the
object case has `.copy()` and `.items()`; the detector calls both. -/
inductive PyJson where
  | obj (fields : List (String × PyValue))
  | arr (elems : List PyValue)
  | scalar (v : PyValue)
deriving DecidableEq, Repr

/-- Python `detect_and_redact_pii(data_json)`.  The second argument is the result
of `json.loads(data_json)`: `none` when parsing raised (the bare `except`
returns the raw text wrapped in two quote characters, verdict `False`).
When parsing yields a non-dict value, `data.copy()` (scalars) or
`data.items()` (lists, strings) raises `AttributeError`, which no handler
catches; that uncaught-exception outcome is the `Except.error` case.  On a
dict, the field loop runs and the redacted dict is serialized with embedded
quotes doubled and the whole wrapped in quotes for the CSV container. -/
def detect_and_redact_pii (data_json : String) (parsed : Option PyJson) :
    Except String (String × Bool) :=
  match parsed with
  | none => Except.ok ("\"" ++ data_json ++ "\"", false)
  | some (PyJson.obj fields) =>
    let r := processPayload fields
    let json_str : String := ⟨dumpsObj r.1⟩
    let escaped_json : String := ⟨doubleQuotes json_str.data⟩
    Except.ok ("\"" ++ escaped_json ++ "\"", r.2)
  | some _ => Except.error "AttributeError"

/-- The output text the specification describes for a record that fails to
parse, following the spec's words and not the source: the original input
with every embedded double-quote doubled, wrapped in double quotes. -/
def escapedOriginalSpec (s : String) : String :=
  "\"" ++ (⟨doubleQuotes s.data⟩ : String) ++ "\""

/-- Whether the field loop treats this key/value pair as standalone PII,
written out as the disjunction of the four standalone detector conditions
on a non-skipped value. -/
def isStandaloneField (key : String) (value : PyValue) : Bool :=
  !(decide (value = PyValue.null ∨ value = PyValue.str "")) &&
    (((decide (key = "phone") || decide (key = "contact")) && is_phone_number (pyStr value))
      || (decide (key = "aadhar") && is_aadhar_number (pyStr value))
      || (decide (key = "passport") && is_passport_number (pyStr value))
      || (decide (key = "upi_id") && is_upi_id (pyStr value)))

/-- The combinatorial category the field loop appends for this key/value
pair, if any. -/
def combCategoryOf (key : String) (value : PyValue) : Option String :=
  match fieldAction key value with
  | FieldAction.combinatorial cat _ => some cat
  | _ => none

/-- All combinatorial categories a payload's fields fire, in field order. -/
def combCategories (data : List (String × PyValue)) : List String :=
  data.filterMap fun kv => combCategoryOf kv.1 kv.2

/-- Whether the field loop classifies this key/value pair as PII at all
(standalone or combinatorial candidate) and hence redacts it. -/
def classifiedPII (key : String) (value : PyValue) : Bool :=
  match fieldAction key value with
  | FieldAction.standalone _ => true
  | FieldAction.combinatorial _ _ => true
  | _ => false

/-- The field-local effect of the loop on one key/value pair. -/
def redactPair (kv : String × PyValue) : String × PyValue :=
  match fieldAction kv.1 kv.2 with
  | FieldAction.standalone nv => (kv.1, PyValue.str ⟨nv⟩)
  | FieldAction.combinatorial _ nv => (kv.1, PyValue.str ⟨nv⟩)
  | _ => kv

/-- A payload holding only the two opaque-identifier fields. -/
def devicePayload : List (String × PyValue) :=
  [("device_id", PyValue.str "abc123"), ("ip_address", PyValue.str "10.0.0.7")]

/-- A payload text that `json.loads` rejects (no value after the colon) and
that contains embedded double-quote characters. -/
def badRaw : String := "\x7b\"a\": \x7d"

/-- Whether the field loop sets `is_pii` for this pair (a standalone hit). -/
def standaloneAct (kv : String × PyValue) : Bool :=
  match fieldAction kv.1 kv.2 with
  | FieldAction.standalone _ => true
  | _ => false

/-- Assignment via `setKey` keeps the key list (in order) whenever the key is present. -/
theorem setKey_map_fst (l : List (String × PyValue)) (k : String) (v : PyValue)
    (h : k ∈ l.map Prod.fst) : (setKey l k v).map Prod.fst = l.map Prod.fst := by
  induction l with
  | nil => simp at h
  | cons kv rest ih =>
    obtain ⟨k', v'⟩ := kv
    simp only [List.map_cons] at h
    by_cases hk : k' = k
    · simp [setKey, hk]
    · have hr : k ∈ rest.map Prod.fst := by
        rcases List.mem_cons.mp h with h1 | h1
        · exact absurd h1.symm hk
        · exact h1
      simp [setKey, hk, ih hr]

/-- Assigning to a key that first occurs past `front` rewrites exactly that
occurrence. -/
theorem setKey_append (front ys : List (String × PyValue)) (k : String) (v nv : PyValue)
    (h : k ∉ front.map Prod.fst) :
    setKey (front ++ (k, v) :: ys) k nv = front ++ (k, nv) :: ys := by
  induction front with
  | nil => simp [setKey]
  | cons kv rest ih =>
    obtain ⟨k', v'⟩ := kv
    simp only [List.map_cons, List.mem_cons] at h
    push_neg at h
    have hne : ¬ (k' = k) := fun hh => h.1 hh.symm
    simp only [List.cons_append, setKey, if_neg hne]
    exact congrArg (List.cons (k', v')) (ih h.2)

/-- On a skipped pair the field-local redaction map is the identity. -/
theorem redactPair_skip (k : String) (v : PyValue)
    (h : fieldAction k v = FieldAction.skip) : redactPair (k, v) = (k, v) := by
  unfold redactPair
  rw [h]

/-- On an unclassified pair the field-local redaction map is the identity. -/
theorem redactPair_norule (k : String) (v : PyValue)
    (h : fieldAction k v = FieldAction.norule) : redactPair (k, v) = (k, v) := by
  unfold redactPair
  rw [h]

/-- On a standalone hit the field-local redaction map installs the redacted
string. -/
theorem redactPair_standalone (k : String) (v : PyValue) (nv : List Char)
    (h : fieldAction k v = FieldAction.standalone nv) :
    redactPair (k, v) = (k, PyValue.str ⟨nv⟩) := by
  unfold redactPair
  rw [h]

/-- On a combinatorial hit the field-local redaction map installs the
redacted string. -/
theorem redactPair_comb (k : String) (v : PyValue) (cat : String) (nv : List Char)
    (h : fieldAction k v = FieldAction.combinatorial cat nv) :
    redactPair (k, v) = (k, PyValue.str ⟨nv⟩) := by
  unfold redactPair
  rw [h]

/-- The combinatorial list collected by the loop is the accumulator followed
by the categories fired by the remaining fields, in order. -/
theorem loop_comb (data : List (String × PyValue)) :
    ∀ red pii comb, (data.foldl loopStep (red, pii, comb)).2.2 = comb ++ combCategories data := by
  induction data with
  | nil => intro red pii comb; simp [combCategories]
  | cons kv rest ih =>
    intro red pii comb
    cases h : fieldAction kv.1 kv.2 <;>
      simp [List.foldl_cons, loopStep, h, combCategories, List.filterMap_cons,
        combCategoryOf, ih]

/-- The `is_pii` flag computed by the loop is the accumulator or-ed with
"some remaining field is a standalone hit". -/
theorem loop_pii (data : List (String × PyValue)) :
    ∀ red pii comb, (data.foldl loopStep (red, pii, comb)).2.1
      = (pii || data.any standaloneAct) := by
  induction data with
  | nil => intro red pii comb; simp
  | cons kv rest ih =>
    intro red pii comb
    cases h : fieldAction kv.1 kv.2 <;>
      simp [List.foldl_cons, loopStep, h, standaloneAct, List.any_cons, ih, Bool.or_assoc]

/-- The loop never changes the key list of the redaction dict when every
iterated key is present in it. -/
theorem loop_keys (data : List (String × PyValue)) :
    ∀ red pii comb, (∀ kv ∈ data, kv.1 ∈ red.map Prod.fst) →
      (data.foldl loopStep (red, pii, comb)).1.map Prod.fst = red.map Prod.fst := by
  induction data with
  | nil => intro red pii comb _; simp
  | cons kv rest ih =>
    intro red pii comb hmem
    have hkv : kv.1 ∈ red.map Prod.fst := hmem kv (List.mem_cons_self kv rest)
    have hrest : ∀ x ∈ rest, x.1 ∈ red.map Prod.fst :=
      fun x hx => hmem x (List.mem_cons_of_mem _ hx)
    cases h : fieldAction kv.1 kv.2 <;> simp only [List.foldl_cons, loopStep, h]
    · exact ih red pii comb hrest
    · rw [ih _ _ _ (fun x hx => by rw [setKey_map_fst red kv.1 _ hkv]; exact hrest x hx)]
      exact setKey_map_fst red kv.1 _ hkv
    · rw [ih _ _ _ (fun x hx => by rw [setKey_map_fst red kv.1 _ hkv]; exact hrest x hx)]
      exact setKey_map_fst red kv.1 _ hkv
    · exact ih red pii comb hrest

/-- Under distinct keys the loop's redaction dict is the field-local map
`redactPair` applied to each pair, past an untouched processed front. -/
theorem loop_values (suf : List (String × PyValue)) :
    ∀ front : List (String × PyValue), ∀ pii comb,
      (((front ++ suf).map Prod.fst).Nodup) →
      (suf.foldl loopStep (front ++ suf, pii, comb)).1 = front ++ suf.map redactPair := by
  induction suf with
  | nil => intro front pii comb _; simp
  | cons kv rest ih =>
    intro front pii comb hnd
    obtain ⟨k, v⟩ := kv
    have hshape : ((front ++ (k, v) :: rest).map Prod.fst)
        = front.map Prod.fst ++ k :: rest.map Prod.fst := by simp
    rw [hshape] at hnd
    have hmid := List.nodup_middle.mp hnd
    have hk := (List.nodup_cons.mp hmid).1
    have hkfront : k ∉ front.map Prod.fst := fun hh => hk (List.mem_append_left _ hh)
    cases h : fieldAction k v
    case skip =>
      have hnd2 : (((front ++ [(k, v)]) ++ rest).map Prod.fst).Nodup := by
        simpa using hnd
      have h2 := ih (front ++ [(k, v)]) pii comb hnd2
      simp only [List.append_assoc, List.singleton_append] at h2
      simp only [List.foldl_cons, loopStep, h, List.map_cons, redactPair_skip k v h]
      exact h2
    case norule =>
      have hnd2 : (((front ++ [(k, v)]) ++ rest).map Prod.fst).Nodup := by
        simpa using hnd
      have h2 := ih (front ++ [(k, v)]) pii comb hnd2
      simp only [List.append_assoc, List.singleton_append] at h2
      simp only [List.foldl_cons, loopStep, h, List.map_cons, redactPair_norule k v h]
      exact h2
    case standalone nv =>
      have hnd2 : (((front ++ [(k, PyValue.str ⟨nv⟩)]) ++ rest).map Prod.fst).Nodup := by
        simpa using hnd
      have h2 := ih (front ++ [(k, PyValue.str ⟨nv⟩)]) true comb hnd2
      simp only [List.append_assoc, List.singleton_append] at h2
      simp only [List.foldl_cons, loopStep, h, List.map_cons,
        setKey_append front rest k v (PyValue.str ⟨nv⟩) hkfront,
        redactPair_standalone k v nv h]
      exact h2
    case combinatorial cat nv =>
      have hnd2 : (((front ++ [(k, PyValue.str ⟨nv⟩)]) ++ rest).map Prod.fst).Nodup := by
        simpa using hnd
      have h2 := ih (front ++ [(k, PyValue.str ⟨nv⟩)]) pii (comb ++ [cat]) hnd2
      simp only [List.append_assoc, List.singleton_append] at h2
      simp only [List.foldl_cons, loopStep, h, List.map_cons,
        setKey_append front rest k v (PyValue.str ⟨nv⟩) hkfront,
        redactPair_comb k v cat nv h]
      exact h2

/-- The redacted payload has the input's keys, in the input's order. -/
theorem processPayload_keys (data : List (String × PyValue)) :
    (processPayload data).1.map Prod.fst = data.map Prod.fst := by
  simp only [processPayload]
  exact loop_keys data data false [] (fun kv h => List.mem_map_of_mem Prod.fst h)

/-- Under distinct keys the redacted payload is the field-local redaction of
each pair. -/
theorem processPayload_fst (data : List (String × PyValue))
    (h : (data.map Prod.fst).Nodup) : (processPayload data).1 = data.map redactPair := by
  simp only [processPayload]
  simpa using loop_values data [] false [] (by simpa using h)

/-- The verdict is "some standalone hit, or at least two combinatorial
categories fired". -/
theorem processPayload_snd (data : List (String × PyValue)) :
    (processPayload data).2
      = (data.any standaloneAct || decide (2 ≤ (combCategories data).length)) := by
  simp only [processPayload, loop_pii, loop_comb]
  simp

/-- The category the loop appends for a pair is always that pair's key. -/
theorem fieldAction_comb_cat (k : String) (v : PyValue) (cat : String) (nv : List Char)
    (h : fieldAction k v = FieldAction.combinatorial cat nv) : cat = k := by
  unfold fieldAction at h
  split_ifs at h <;> simp_all

/-- The category the loop records for a pair, through `combCategoryOf`, is
that pair's key. -/
theorem combCategoryOf_eq_key (k : String) (v : PyValue) (c : String)
    (h : combCategoryOf k v = some c) : c = k := by
  unfold combCategoryOf at h
  cases hf : fieldAction k v <;> rw [hf] at h
  case skip => exact absurd h (by simp)
  case standalone nv => exact absurd h (by simp)
  case norule => exact absurd h (by simp)
  case combinatorial cat nv =>
    have hc : cat = c := by simpa using h
    rw [← hc]
    exact fieldAction_comb_cat k v cat nv hf

/-- Categories collected over a payload are keys of the payload. -/
theorem mem_combCategories (data : List (String × PyValue)) (c : String)
    (h : c ∈ combCategories data) : c ∈ data.map Prod.fst := by
  unfold combCategories at h
  obtain ⟨kv, hkv, hc⟩ := List.mem_filterMap.mp h
  rw [combCategoryOf_eq_key kv.1 kv.2 c hc]
  exact List.mem_map_of_mem Prod.fst hkv

/-- Under distinct keys each combinatorial category fires at most once. -/
theorem combCategories_nodup (data : List (String × PyValue))
    (h : (data.map Prod.fst).Nodup) : (combCategories data).Nodup := by
  induction data with
  | nil => simp [combCategories]
  | cons kv rest ih =>
    simp only [List.map_cons, List.nodup_cons] at h
    have hrest := ih h.2
    simp only [combCategories, List.filterMap_cons]
    cases hc : combCategoryOf kv.1 kv.2
    · exact hrest
    case some c =>
      refine List.nodup_cons.mpr ⟨fun hmem => ?_, hrest⟩
      have hck : c = kv.1 := combCategoryOf_eq_key kv.1 kv.2 c hc
      exact h.1 (hck ▸ mem_combCategories rest c hmem)

/-- A pair sets `is_pii` in the loop exactly when one of the four standalone
branch conditions holds on a non-skipped value. -/
theorem standaloneAct_eq (k : String) (v : PyValue) :
    standaloneAct (k, v) = isStandaloneField k v := by
  unfold standaloneAct isStandaloneField fieldAction
  split_ifs <;> simp_all

/-- A `device_id` or `ip_address` field with a non-null, non-empty value
always reaches the identifier branch: it fires as a combinatorial candidate
named after its key and is replaced by the fixed placeholder. -/
theorem fieldAction_device (k : String) (v : PyValue)
    (hk : k = "device_id" ∨ k = "ip_address")
    (hv : ¬(v = PyValue.null ∨ v = PyValue.str "")) :
    fieldAction k v = FieldAction.combinatorial k "[REDACTED_ID]".data := by
  rcases hk with hk | hk <;> subst hk <;>
    · unfold fieldAction
      rw [if_neg hv]
      simp

/-- Python `str.split(sep)` on a string not containing the separator is the whole
string as a single piece. -/
theorem splitOnChar_no_sep (sep : Char) (l : List Char) (h : sep ∉ l) :
    splitOnChar sep l = [l] := by
  induction l with
  | nil => rfl
  | cons c rest ih =>
    simp only [List.mem_cons] at h
    push_neg at h
    have hne : (c == sep) = false := beq_eq_false_iff_ne.mpr (Ne.symm h.1)
    have ihr := ih h.2
    unfold splitOnChar at ihr ⊢
    simp [splitOnPred, hne, ihr]

/-- Python `str.split(sep)` on a string with exactly one separator yields the two
sides. -/
theorem splitOnChar_single (sep : Char) (l d : List Char) (hl : sep ∉ l) (hd : sep ∉ d) :
    splitOnChar sep (l ++ sep :: d) = [l, d] := by
  induction l with
  | nil =>
    have hdd := splitOnChar_no_sep sep d hd
    unfold splitOnChar at hdd ⊢
    simp [splitOnPred, hdd]
  | cons c rest ih =>
    simp only [List.mem_cons] at hl
    push_neg at hl
    have hne : (c == sep) = false := beq_eq_false_iff_ne.mpr (Ne.symm hl.1)
    have ihr := ih hl.2
    unfold splitOnChar at ihr ⊢
    simp [splitOnPred, hne, ihr]

/-- When the split has exactly two parts, UPI and e-mail redaction agree
(they differ only in the placeholder of the other branch). -/
theorem redact_upi_eq_redact_email (u a b : List Char)
    (h : splitOnChar '@' u = [a, b]) : redact_upi u = redact_email u := by
  unfold redact_upi redact_email
  rw [h]

/-- C3: for every successfully parsed payload the verdict is true iff some
field is standalone PII (a phone/contact, aadhar, passport or upi_id key
whose value matches its detector) or at least two distinct combinatorial
categories were collected; in particular a record whose only field is a
valid two-token name gets verdict false, and a record with a valid name and
a valid email gets verdict true. -/
theorem claim_C3_verdict :
    (∀ data : List (String × PyValue), (data.map Prod.fst).Nodup →
        ((processPayload data).2 = true ↔
          (∃ kv ∈ data, isStandaloneField kv.1 kv.2 = true)
            ∨ 2 ≤ ((combCategories data).dedup).length))
    ∧ (processPayload [("name", PyValue.str "Jane Doe")]).2 = false
    ∧ (processPayload
        [("name", PyValue.str "Jane Doe"),
         ("email", PyValue.str "jane.doe@example.com")]).2 = true := by
  refine ⟨fun data hnd => ?_, by decide, by decide⟩
  have hact : standaloneAct = fun kv : String × PyValue => isStandaloneField kv.1 kv.2 :=
    funext fun kv => standaloneAct_eq kv.1 kv.2
  rw [processPayload_snd, hact, List.dedup_eq_self.mpr (combCategories_nodup data hnd)]
  simp [List.any_eq_true]

/-- Witness for C3 at the name-and-email payload. -/
theorem claim_C3_verdict_witness :
    (processPayload
        [("name", PyValue.str "Jane Doe"),
         ("email", PyValue.str "jane.doe@example.com")]).2 = true ↔
      (∃ kv ∈ [("name", PyValue.str "Jane Doe"),
               ("email", PyValue.str "jane.doe@example.com")],
          isStandaloneField kv.1 kv.2 = true)
        ∨ 2 ≤ ((combCategories
            [("name", PyValue.str "Jane Doe"),
             ("email", PyValue.str "jane.doe@example.com")]).dedup).length :=
  claim_C3_verdict.1 _ (by decide)

/-- C1 fails on the code: a payload whose keys are exactly `device_id` and
`ip_address` (so none of name/email/address is present) gets verdict true,
and both values are replaced by the placeholder rather than left
unchanged. -/
theorem claim_C1_counterexample :
    devicePayload.map Prod.fst = ["device_id", "ip_address"]
    ∧ (processPayload devicePayload).2 = true
    ∧ (processPayload devicePayload).1
        = [("device_id", PyValue.str "[REDACTED_ID]"),
           ("ip_address", PyValue.str "[REDACTED_ID]")] := by
  decide

/-- C1 amended: a `device_id` or `ip_address` field with a non-null,
non-empty value always contributes its key to the combinatorial category
list and is replaced by `[REDACTED_ID]`, whether or not any of
name/email/address is present; a record containing only one such field
still has verdict false, but a record containing both has verdict true. -/
theorem claim_C1_amended :
    (∀ (k : String) (v : PyValue), (k = "device_id" ∨ k = "ip_address") →
        ¬(v = PyValue.null ∨ v = PyValue.str "") →
        fieldAction k v = FieldAction.combinatorial k "[REDACTED_ID]".data)
    ∧ (∀ v : PyValue, ¬(v = PyValue.null ∨ v = PyValue.str "") →
        (processPayload [("device_id", v)]).2 = false
        ∧ (processPayload [("ip_address", v)]).2 = false)
    ∧ (processPayload devicePayload).2 = true := by
  refine ⟨fieldAction_device, fun v hv => ?_, by decide⟩
  have hd := fieldAction_device "device_id" v (Or.inl rfl) hv
  have hi := fieldAction_device "ip_address" v (Or.inr rfl) hv
  constructor
  · rw [processPayload_snd]
    simp [standaloneAct, combCategories, combCategoryOf, hd]
  · rw [processPayload_snd]
    simp [standaloneAct, combCategories, combCategoryOf, hi]

/-- Witness for the amended C1 at a concrete value. -/
theorem claim_C1_amended_witness :
    fieldAction "device_id" (PyValue.str "abc123")
        = FieldAction.combinatorial "device_id" "[REDACTED_ID]".data
    ∧ (processPayload [("device_id", PyValue.str "abc123")]).2 = false :=
  ⟨claim_C1_amended.1 "device_id" (PyValue.str "abc123") (Or.inl rfl) (by decide),
   (claim_C1_amended.2.1 (PyValue.str "abc123") (by decide)).1⟩

/-- C2 fails on the code: on a parse failure the raw text is wrapped in one
pair of double quotes but its embedded double quotes are not doubled, so
for an unparseable input containing a quote the output differs from the
claimed fully-escaped form. -/
theorem claim_C2_counterexample :
    detect_and_redact_pii badRaw none = Except.ok ("\"" ++ badRaw ++ "\"", false)
    ∧ ("\"" ++ badRaw ++ "\"") ≠ escapedOriginalSpec badRaw :=
  ⟨rfl, by decide⟩

/-- C2 amended: for every payload text that fails to parse the function
returns verdict false and the raw input wrapped in a pair of double quotes,
with embedded double quotes left as they are (not doubled). -/
theorem claim_C2_amended (raw : String) :
    detect_and_redact_pii raw none = Except.ok ("\"" ++ raw ++ "\"", false) :=
  rfl

/-- C4: a value whose cleaned form is exactly ten digits is redacted to its
first two cleaned characters, six `X`s and its last two cleaned characters
(so `9876543210` becomes `98XXXXXX10`); a value whose cleaned form does not
have exactly ten characters becomes the fixed placeholder. -/
theorem claim_C4 :
    (∀ cs : List Char, (cleanPhone cs).length = 10 →
        (cleanPhone cs).all Char.isDigit = true →
        redact_phone cs = (cleanPhone cs).take 2 ++ "XXXXXX".data ++ (cleanPhone cs).drop 8)
    ∧ (∀ cs : List Char, (cleanPhone cs).length ≠ 10 →
        redact_phone cs = "[REDACTED_PHONE]".data)
    ∧ redact_phone "9876543210".data = "98XXXXXX10".data := by
  refine ⟨fun cs h10 _ => ?_, fun cs hne => ?_, by decide⟩
  · unfold redact_phone
    rw [if_pos h10, h10]
  · unfold redact_phone
    rw [if_neg hne]

/-- Witness for C4 on a separated ten-digit number and a short number. -/
theorem claim_C4_witness :
    redact_phone "987-654-3210".data
        = (cleanPhone "987-654-3210".data).take 2 ++ "XXXXXX".data
          ++ (cleanPhone "987-654-3210".data).drop 8
    ∧ redact_phone "12345".data = "[REDACTED_PHONE]".data :=
  ⟨claim_C4.1 "987-654-3210".data (by decide) (by decide),
   claim_C4.2.1 "12345".data (by decide)⟩

/-- C5: the Jane Doe payload is redacted to `JXXX DXX` /
`jaXXX@example.com` with verdict true. -/
theorem claim_C5 :
    processPayload
        [("name", PyValue.str "Jane Doe"), ("email", PyValue.str "jane.doe@example.com")]
      = ([("name", PyValue.str "JXXX DXX"), ("email", PyValue.str "jaXXX@example.com")],
         true) := by
  decide

/-- C6: a value with more than one character is redacted to its first
character followed by exactly seven `X`s regardless of its length; a
one-character or empty value becomes the placeholder. -/
theorem claim_C6 :
    (∀ cs : List Char, 1 < cs.length → redact_passport cs = cs.take 1 ++ "XXXXXXX".data)
    ∧ (∀ cs : List Char, cs.length ≤ 1 → redact_passport cs = "[REDACTED_PASSPORT]".data) := by
  refine ⟨fun cs h => ?_, fun cs h => ?_⟩
  · unfold redact_passport
    rw [if_pos h]
  · unfold redact_passport
    rw [if_neg (by omega)]

/-- Witness for C6 on a long value (note the seven `X`s do not match the
seven remaining characters of a nine-character value) and on a short one. -/
theorem claim_C6_witness :
    redact_passport "P12345678".data = "P12345678".data.take 1 ++ "XXXXXXX".data
    ∧ redact_passport "P".data = "[REDACTED_PASSPORT]".data :=
  ⟨claim_C6.1 "P12345678".data (by decide), claim_C6.2 "P".data (by decide)⟩

/-- C7 is violated by the code: an input that parses to a JSON array (for
example `[1, 2]`) makes `data.items()` raise `AttributeError`, which
escapes `detect_and_redact_pii` instead of being absorbed. -/
theorem claim_C7_code_bug :
    detect_and_redact_pii "[1, 2]" (some (PyJson.arr [PyValue.int 1, PyValue.int 2]))
      = Except.error "AttributeError" :=
  rfl

/-- C8: the redacted payload has exactly the input's keys in the input's
order; under the parsed payload's distinct keys every field is mapped
field-locally, and every pair the loop does not classify (unrecognized
keys, null or empty values, failed detectors) keeps its original value;
the `city: Pune` payload passes through unchanged with verdict false. -/
theorem claim_C8 :
    (∀ data : List (String × PyValue),
        (processPayload data).1.map Prod.fst = data.map Prod.fst)
    ∧ (∀ data : List (String × PyValue), (data.map Prod.fst).Nodup →
        (processPayload data).1 = data.map redactPair)
    ∧ (∀ (k : String) (v : PyValue), classifiedPII k v = false → redactPair (k, v) = (k, v))
    ∧ processPayload [("city", PyValue.str "Pune")]
        = ([("city", PyValue.str "Pune")], false) := by
  refine ⟨processPayload_keys, processPayload_fst, fun k v h => ?_, by decide⟩
  cases hf : fieldAction k v
  case skip => exact redactPair_skip k v hf
  case standalone nv =>
    unfold classifiedPII at h
    rw [hf] at h
    simp at h
  case combinatorial cat nv =>
    unfold classifiedPII at h
    rw [hf] at h
    simp at h
  case norule => exact redactPair_norule k v hf

/-- Witness for C8 at the name-and-email payload and the unrecognized
`city` field. -/
theorem claim_C8_witness :
    (processPayload
        [("name", PyValue.str "Jane Doe"), ("email", PyValue.str "jane.doe@example.com")]).1
      = List.map redactPair
          [("name", PyValue.str "Jane Doe"), ("email", PyValue.str "jane.doe@example.com")]
    ∧ redactPair ("city", PyValue.str "Pune") = ("city", PyValue.str "Pune") :=
  ⟨claim_C8.2.1 _ (by decide), claim_C8.2.2.1 "city" (PyValue.str "Pune") (by decide)⟩

/-- C9: phone redaction is idempotent on its own placeholder, which fails
the ten-character check after cleaning. -/
theorem claim_C9 :
    redact_phone "[REDACTED_PHONE]".data = "[REDACTED_PHONE]".data
    ∧ (cleanPhone "[REDACTED_PHONE]".data).length ≠ 10 := by
  decide

/-- C10: on a string with exactly one `'@'` whose local part is longer than
two characters, e-mail and UPI redaction are idempotent: the output's local
part is the first two original characters plus `XXX`, again longer than
two, with the domain unchanged. -/
theorem claim_C10 :
    ∀ l d : List Char, '@' ∉ l → '@' ∉ d → 2 < l.length →
      redact_email (redact_email (l ++ '@' :: d)) = redact_email (l ++ '@' :: d)
      ∧ redact_upi (redact_upi (l ++ '@' :: d)) = redact_upi (l ++ '@' :: d) := by
  intro l d hl hd hlen
  have hsplit := splitOnChar_single '@' l d hl hd
  have hemail : redact_email (l ++ '@' :: d) = l.take 2 ++ "XXX@".data ++ d := by
    unfold redact_email
    rw [hsplit]
    simp [hlen]
  have hshape : l.take 2 ++ "XXX@".data ++ d = (l.take 2 ++ "XXX".data) ++ '@' :: d := by
    simp
  have hl2 : '@' ∉ l.take 2 ++ "XXX".data := by
    intro hm
    rcases List.mem_append.mp hm with hm | hm
    · exact hl (List.mem_of_mem_take hm)
    · simp at hm
  have hlen2 : 2 < (l.take 2 ++ "XXX".data).length := by
    simp [List.length_take]
  have hsplit2 := splitOnChar_single '@' (l.take 2 ++ "XXX".data) d hl2 hd
  have htake : (l.take 2 ++ "XXX".data).take 2 = l.take 2 := by
    have h2 : (l.take 2).length = 2 := by
      rw [List.length_take]
      omega
    rw [List.take_append_eq_append_take, h2]
    simp [List.take_take]
  have hemail2 : redact_email (l.take 2 ++ "XXX@".data ++ d) = l.take 2 ++ "XXX@".data ++ d := by
    rw [hshape]
    unfold redact_email
    rw [hsplit2]
    simp only [if_pos hlen2, htake]
    simp
  constructor
  · rw [hemail, hemail2]
  · have hupi : redact_upi (l ++ '@' :: d) = l.take 2 ++ "XXX@".data ++ d := by
      rw [redact_upi_eq_redact_email _ _ _ hsplit, hemail]
    have hupi2 : redact_upi (l.take 2 ++ "XXX@".data ++ d) = l.take 2 ++ "XXX@".data ++ d := by
      rw [show l.take 2 ++ "XXX@".data ++ d = (l.take 2 ++ "XXX".data) ++ '@' :: d from hshape]
      rw [redact_upi_eq_redact_email _ _ _ hsplit2, ← hshape, hemail2]
    rw [hupi, hupi2]

/-- Witness for C10 at a concrete address. -/
theorem claim_C10_witness :
    redact_email (redact_email ("jan".data ++ '@' :: "ex.com".data))
        = redact_email ("jan".data ++ '@' :: "ex.com".data)
    ∧ redact_upi (redact_upi ("jan".data ++ '@' :: "ex.com".data))
        = redact_upi ("jan".data ++ '@' :: "ex.com".data) :=
  claim_C10 "jan".data "ex.com".data (by decide) (by decide) (by decide)
